import Mathlib

/-!
Shallow embedding of the YJ_Layout_Auto core engines (`src/core/engines.py`)
and proofs of the specification claims about them.

Coordinates are modelled as exact rationals (the Python code computes with
floats; all claims under scrutiny are structural and the spec demands
insensitivity to floating noise).  Errors raised by the Python code are
modelled with an `Except` monad over an explicit error type.
-/

/-- Python `round` to the nearest integer, ties to even (banker's rounding). -/
def pyRound (q : ℚ) : ℤ :=
  let f : ℤ := ⌊q⌋
  let r : ℚ := q - f
  if r < 1/2 then f
  else if 1/2 < r then f + 1
  else if f % 2 = 0 then f else f + 1

/-- Python `round(x, 3)`: rounding to 3 decimal places. -/
def round3 (q : ℚ) : ℚ := (pyRound (q * 1000) : ℚ) / 1000

/-- Python `sorted` on a list of rationals (ascending). -/
def sortQ (l : List ℚ) : List ℚ := l.insertionSort (· ≤ ·)

/-- Tail of `get_unique` from `LensEngine.process` (engines.py, lines 58-61):
scan the remaining coordinates, appending a coordinate as a new cluster
representative exactly when its gap to the last representative strictly
exceeds the tolerance. -/
def get_uniqueGo (tolerance : ℚ) (last : ℚ) : List ℚ → List ℚ
  | [] => []
  | c :: cs =>
      if c - last > tolerance then c :: get_uniqueGo tolerance c cs
      else get_uniqueGo tolerance last cs

/-- Embedding of `get_unique` from `LensEngine.process` (engines.py, lines 56-61):
threshold-merge clustering of an (already sorted) coordinate list. -/
def get_unique (tolerance : ℚ) : List ℚ → List ℚ
  | [] => []
  | c :: cs => c :: get_uniqueGo tolerance c cs

lemma get_uniqueGo_chain (tol : ℚ) (htol : 0 ≤ tol) :
    ∀ (cs : List ℚ) (last : ℚ),
      List.Chain' (· < ·) (last :: get_uniqueGo tol last cs) := by
  intro cs
  induction cs with
  | nil => intro last; simp [get_uniqueGo]
  | cons c cs ih =>
      intro last
      by_cases h : c - last > tol
      · have hlt : last < c := by linarith
        simpa [get_uniqueGo, h] using (List.Chain'.cons hlt (by simpa using ih c))
      · simpa [get_uniqueGo, h] using ih last

/-- Claim C6: for every list of coordinates and every tolerance ε ≥ 0,
threshold-merge clustering (sort ascending, start a cluster at the first
value, start a new cluster only when the gap to the last cluster's
representative strictly exceeds ε, a gap exactly equal to ε merging into
the current cluster) produces a strictly increasing list of
representatives. -/
theorem get_unique_strictIncreasing (coords : List ℚ) (tol : ℚ) (htol : 0 ≤ tol) :
    List.Chain' (· < ·) (get_unique tol (sortQ coords)) := by
  cases h : sortQ coords with
  | nil => simp [get_unique]
  | cons c cs =>
      simpa [get_unique] using get_uniqueGo_chain tol htol cs c

/-- Witness for C6 at a concrete input. -/
theorem get_unique_strictIncreasing_witness :
    0 ≤ (1 : ℚ) ∧ List.Chain' (· < ·) (get_unique 1 (sortQ [3, 1, 2, 10])) :=
  ⟨by norm_num, get_unique_strictIncreasing [3, 1, 2, 10] 1 (by norm_num)⟩

/-- A geometric primitive: an integer (layer, datatype) tag and its boundary
points (the data of a gdstk `Polygon`). -/
structure Polygon where
  layer : ℤ
  datatype : ℤ
  points : List (ℚ × ℚ)
deriving DecidableEq

/-- One step of a running min/max corner accumulation. -/
def cornerStep (acc : (ℚ × ℚ) × (ℚ × ℚ)) (pt : ℚ × ℚ) : (ℚ × ℚ) × (ℚ × ℚ) :=
  ((min acc.1.1 pt.1, min acc.1.2 pt.2), (max acc.2.1 pt.1, max acc.2.2 pt.2))

/-- Embedding of gdstk `Polygon.bounding_box`: `none` for a polygon without points,
otherwise the (min corner, max corner) pair. -/
def polyBBox (p : Polygon) : Option ((ℚ × ℚ) × (ℚ × ℚ)) :=
  match p.points with
  | [] => none
  | q :: qs => some (qs.foldl cornerStep (q, q))

/-- Merge two corner-pair bounding boxes. -/
def mergeBBox (a b : (ℚ × ℚ) × (ℚ × ℚ)) : (ℚ × ℚ) × (ℚ × ℚ) :=
  ((min a.1.1 b.1.1, min a.1.2 b.1.2), (max a.2.1 b.2.1, max a.2.2 b.2.2))

/-- One step of the union-bounding-box accumulation: polygons without a
bounding box are skipped, the rest extend the running min/max corners. -/
def unionStep (acc : Option ((ℚ × ℚ) × (ℚ × ℚ))) (p : Polygon) :
    Option ((ℚ × ℚ) × (ℚ × ℚ)) :=
  match polyBBox p, acc with
  | none, a => a
  | some bb, none => some bb
  | some bb, some a0 => some (mergeBBox a0 bb)

/-- Union bounding box of a list of polygons: the running min/max over the
polygons that have a bounding box (engines.py, lines 81-88; the `valid`
flag is the `none`/`some` distinction), `none` when no polygon has one. -/
def unionBBox (polys : List Polygon) : Option ((ℚ × ℚ) × (ℚ × ℚ)) :=
  polys.foldl unionStep none

/-- Translate a polygon by a displacement vector (gdstk `Polygon.translate`). -/
def translatePoly (d : ℚ × ℚ) (p : Polygon) : Polygon :=
  { p with points := p.points.map (fun q => (q.1 + d.1, q.2 + d.2)) }

/-- Translate a corner-pair bounding box by a displacement vector. -/
def translateBBox (d : ℚ × ℚ) (bb : (ℚ × ℚ) × (ℚ × ℚ)) : (ℚ × ℚ) × (ℚ × ℚ) :=
  ((bb.1.1 + d.1, bb.1.2 + d.2), (bb.2.1 + d.1, bb.2.2 + d.2))

/-- Center of a corner-pair bounding box. -/
def bboxCenter (bb : (ℚ × ℚ) × (ℚ × ℚ)) : ℚ × ℚ :=
  ((bb.1.1 + bb.2.1) / 2, (bb.1.2 + bb.2.2) / 2)

/-- Text placement (engines.py, lines 80-94 and 186-193): compute the union
bounding box of the generated glyph polygons; if it is empty, skip the
placement; otherwise shift every glyph polygon so that the union bounding
box is centered on `target` and append the shifted polygons to the
destination cell's polygon list. -/
def placeText (target : ℚ × ℚ) (polys : List Polygon) (cellPolys : List Polygon) :
    List Polygon :=
  match unionBBox polys with
  | none => cellPolys
  | some bb =>
      let c := bboxCenter bb
      cellPolys ++ polys.map (translatePoly (target.1 - c.1, target.2 - c.2))

lemma foldl_cornerStep_translate (d : ℚ × ℚ) :
    ∀ (qs : List (ℚ × ℚ)) (acc : (ℚ × ℚ) × (ℚ × ℚ)),
      (qs.map (fun q => (q.1 + d.1, q.2 + d.2))).foldl cornerStep
          (translateBBox d acc)
        = translateBBox d (qs.foldl cornerStep acc) := by
  intro qs
  induction qs with
  | nil => intro acc; simp
  | cons q qs ih =>
      intro acc
      have hstep : cornerStep (translateBBox d acc) (q.1 + d.1, q.2 + d.2)
          = translateBBox d (cornerStep acc q) := by
        simp only [cornerStep, translateBBox]
        refine Prod.ext (Prod.ext ?_ ?_) (Prod.ext ?_ ?_) <;>
          simp [min_add_add_right, max_add_add_right]
      simp only [List.map_cons, List.foldl_cons, hstep, ih]

lemma polyBBox_translate (d : ℚ × ℚ) (p : Polygon) :
    polyBBox (translatePoly d p) = (polyBBox p).map (translateBBox d) := by
  cases hp : p.points with
  | nil => simp [polyBBox, translatePoly, hp]
  | cons q qs =>
      have hacc : ((q.1 + d.1, q.2 + d.2), (q.1 + d.1, q.2 + d.2))
          = translateBBox d (q, q) := rfl
      simp [polyBBox, translatePoly, hp, hacc, foldl_cornerStep_translate]

lemma mergeBBox_translate (d : ℚ × ℚ) (a b : (ℚ × ℚ) × (ℚ × ℚ)) :
    mergeBBox (translateBBox d a) (translateBBox d b)
      = translateBBox d (mergeBBox a b) := by
  simp only [mergeBBox, translateBBox]
  refine Prod.ext (Prod.ext ?_ ?_) (Prod.ext ?_ ?_) <;>
    simp [min_add_add_right, max_add_add_right]

lemma unionStep_translate (d : ℚ × ℚ) (acc : Option ((ℚ × ℚ) × (ℚ × ℚ)))
    (p : Polygon) :
    unionStep (acc.map (translateBBox d)) (translatePoly d p)
      = (unionStep acc p).map (translateBBox d) := by
  simp only [unionStep, polyBBox_translate]
  cases polyBBox p with
  | none => cases acc <;> rfl
  | some bb =>
      cases acc with
      | none => rfl
      | some a0 => simp [mergeBBox_translate]

lemma foldl_unionStep_translate (d : ℚ × ℚ) :
    ∀ (ps : List Polygon) (acc : Option ((ℚ × ℚ) × (ℚ × ℚ))),
      (ps.map (translatePoly d)).foldl unionStep (acc.map (translateBBox d))
        = (ps.foldl unionStep acc).map (translateBBox d) := by
  intro ps
  induction ps with
  | nil => intro acc; simp
  | cons p ps ih =>
      intro acc
      simp only [List.map_cons, List.foldl_cons, unionStep_translate, ih]

lemma unionBBox_translate (d : ℚ × ℚ) (polys : List Polygon) :
    unionBBox (polys.map (translatePoly d))
      = (unionBBox polys).map (translateBBox d) := by
  have h := foldl_unionStep_translate d polys none
  simpa [unionBBox] using h

/-- Claim C7: for every label string (whose generated glyph geometry is an
arbitrary polygon list `polys`): when the glyph geometry has an empty union
bounding box, the placement is silently skipped and the destination cell is
unchanged; otherwise every glyph polygon is translated by
`(anchor.x - bboxCenterX, anchor.y - bboxCenterY)` and appended to the
destination cell, and the bounding-box center of the placed geometry equals
the target anchor. -/
theorem placeText_centering (anchor : ℚ × ℚ) (polys cellPolys : List Polygon) :
    (unionBBox polys = none → placeText anchor polys cellPolys = cellPolys) ∧
    (∀ bb, unionBBox polys = some bb →
      placeText anchor polys cellPolys
        = cellPolys ++ polys.map (translatePoly
            (anchor.1 - (bboxCenter bb).1, anchor.2 - (bboxCenter bb).2)) ∧
      unionBBox (polys.map (translatePoly
            (anchor.1 - (bboxCenter bb).1, anchor.2 - (bboxCenter bb).2)))
        = some (translateBBox
            (anchor.1 - (bboxCenter bb).1, anchor.2 - (bboxCenter bb).2) bb) ∧
      bboxCenter (translateBBox
            (anchor.1 - (bboxCenter bb).1, anchor.2 - (bboxCenter bb).2) bb)
        = anchor) := by
  constructor
  · intro h
    simp [placeText, h]
  · intro bb h
    refine ⟨by simp [placeText, h], ?_, ?_⟩
    · rw [unionBBox_translate, h]
      rfl
    · simp only [bboxCenter, translateBBox]
      refine Prod.ext ?_ ?_ <;> (simp only []; ring)

/-- Witness for C7 at a concrete glyph polygon (a unit-2 square) placed at
anchor (5,5). -/
theorem placeText_centering_witness :
    bboxCenter (translateBBox
        ((5 : ℚ) - (bboxCenter ((0, 0), (2, 2))).1,
         (5 : ℚ) - (bboxCenter ((0, 0), (2, 2))).2) ((0, 0), (2, 2)))
      = ((5 : ℚ), (5 : ℚ)) :=
  ((placeText_centering (5, 5) [⟨1, 0, [(0, 0), (2, 0), (2, 2), (0, 2)]⟩]
      []).2 ((0, 0), (2, 2)) (by decide)).2.2

/-- A reference (placement of one cell inside another): resolved target-cell
name, origin, rotation (gdstk stores a float but the code also guards
against `None`), magnification (`None` when unset) and x-reflection. -/
structure Reference where
  cellName : String
  origin : ℚ × ℚ
  rotation : Option ℚ
  magnification : Option ℚ
  x_reflection : Bool

/-- Python `reference.magnification or 1.0` (engines.py, lines 184 and 200):
`None` and an explicit `0.0` are both falsy, so both are replaced by 1. -/
def magOrOne (m : Option ℚ) : ℚ :=
  match m with
  | none => 1
  | some v => if v = 0 then 1 else v

/-- Embedding of `ShotEngine._transform_point` (engines.py, lines 196-208).  The cosine
and sine of the rotation angle are supplied by the parameter `cs`
(modelling `math.cos`/`math.sin`, which have no exact rational
counterpart); the rotation branch is skipped when the rotation is `None`
or exactly zero, so `cs` is never consulted in that case. -/
def transform_point (cs : ℚ → ℚ × ℚ) (point : ℚ × ℚ)
    (reference : Reference) : ℚ × ℚ :=
  let magnification := magOrOne reference.magnification
  let p1 := if reference.x_reflection then (point.1, -point.2) else point
  let p2 := (p1.1 * magnification, p1.2 * magnification)
  let p3 :=
    match reference.rotation with
    | none => p2
    | some angle =>
        if angle = 0 then p2
        else
          let c := (cs angle).1
          let s := (cs angle).2
          (p2.1 * c - p2.2 * s, p2.1 * s + p2.2 * c)
  (p3.1 + reference.origin.1, p3.2 + reference.origin.2)

/-- Spec §4.1 step 1: if x-reflection is set, negate the Y coordinate. -/
def specReflect (xr : Bool) (p : ℚ × ℚ) : ℚ × ℚ :=
  if xr then (p.1, -p.2) else p

/-- Spec §4.1 step 2: multiply both coordinates by the magnification. -/
def specScale (m : ℚ) (p : ℚ × ℚ) : ℚ × ℚ := (p.1 * m, p.2 * m)

/-- Spec §4.1 step 3: rotate counter-clockwise by the rotation angle using
the standard rotation matrix, skipped when the angle is exactly zero. -/
def specRotate (cs : ℚ → ℚ × ℚ) (angle : ℚ) (p : ℚ × ℚ) : ℚ × ℚ :=
  if angle = 0 then p
  else ((cs angle).1 * p.1 - (cs angle).2 * p.2,
        (cs angle).2 * p.1 + (cs angle).1 * p.2)

/-- Spec §4.1 step 4: add the reference's origin. -/
def specTranslate (o : ℚ × ℚ) (p : ℚ × ℚ) : ℚ × ℚ := (p.1 + o.1, p.2 + o.2)

/-- Claim C5: `compose` applies its operations in the fixed order reflect,
scale, rotate (counter-clockwise, skipped when the angle is exactly zero),
translate; and with rotation 0, magnification 1 and no reflection it
returns `local_point + origin` exactly. -/
theorem transform_point_compose :
    (∀ (cs : ℚ → ℚ × ℚ) (point : ℚ × ℚ) (r : Reference),
      transform_point cs point r
        = specTranslate r.origin (specRotate cs (r.rotation.getD 0)
            (specScale (magOrOne r.magnification)
              (specReflect r.x_reflection point)))) ∧
    (∀ (cs : ℚ → ℚ × ℚ) (point : ℚ × ℚ) (n : String) (o : ℚ × ℚ),
      transform_point cs point
          { cellName := n, origin := o, rotation := some 0,
            magnification := some 1, x_reflection := false }
        = (point.1 + o.1, point.2 + o.2)) := by
  constructor
  · intro cs point r
    cases hrot : r.rotation with
    | none =>
        simp [transform_point, specTranslate, specRotate, specScale,
          specReflect, hrot]
    | some angle =>
        by_cases h0 : angle = 0
        · simp [transform_point, specTranslate, specRotate, specScale,
            specReflect, hrot, h0]
        · simp only [transform_point, specTranslate, specRotate, specScale,
            specReflect, hrot, Option.getD_some, if_neg h0]
          refine Prod.ext ?_ ?_ <;> (simp only []; ring)
  · intro cs point n o
    simp [transform_point, magOrOne]

/-- Embedding of the `ShotEngine.process` auto-fit label size (engines.py, lines 178-185):
`char_aspect = 0.6`, `size = min(l_h * 0.9, (l_w * 0.9) / (n * 0.6)) * mag`
with `mag = reference.magnification or 1.0`. -/
def shotSize (l_w l_h : ℚ) (n : ℕ) (mag : Option ℚ) : ℚ :=
  min (l_h * (9 / 10)) ((l_w * (9 / 10)) / ((n : ℚ) * (6 / 10))) * magOrOne mag

/-- Claim C9: an explicit zero magnification is treated identically to an
unset magnification by both the point transform and the auto-fit label
sizing: 1.0 is silently substituted in both cases and no error is
raised (both functions are total). -/
theorem magnification_zero_as_unset :
    (∀ (cs : ℚ → ℚ × ℚ) (point : ℚ × ℚ) (n : String) (o : ℚ × ℚ)
        (rot : Option ℚ) (xr : Bool),
      transform_point cs point ⟨n, o, rot, some 0, xr⟩
        = transform_point cs point ⟨n, o, rot, none, xr⟩) ∧
    (∀ (cs : ℚ → ℚ × ℚ) (point : ℚ × ℚ) (n : String) (o : ℚ × ℚ)
        (rot : Option ℚ) (xr : Bool),
      transform_point cs point ⟨n, o, rot, none, xr⟩
        = transform_point cs point ⟨n, o, rot, some 1, xr⟩) ∧
    (∀ (l_w l_h : ℚ) (n : ℕ),
      shotSize l_w l_h n (some 0) = shotSize l_w l_h n none ∧
      shotSize l_w l_h n none = shotSize l_w l_h n (some 1)) := by
  refine ⟨?_, ?_, ?_⟩
  · intro cs point n o rot xr
    simp [transform_point, magOrOne]
  · intro cs point n o rot xr
    simp [transform_point, magOrOne]
  · intro l_w l_h n
    constructor <;> simp [shotSize, magOrOne]

/-- Errors raised by the Python engines: `ValueError` with a message
(the code's not-found failures) and `ZeroDivisionError`. -/
inductive PyErr where
  | valueError (msg : String)
  | zeroDivisionError
deriving DecidableEq

/-- A cell: its polygon primitives and its reference placements.  (The name
is the key under which the cell is stored in the library's cell map.) -/
structure Cell where
  polygons : List Polygon
  references : List Reference

/-- Instance collection of `LensEngine.process` (engines.py, lines 42-48):
keep the parent's references resolving to the child name; each instance's
position is the reference origin plus the child's local bounding-box
center (translate-only anchors). -/
def lensCollect (refs : List Reference) (childName : String)
    (localCenter : ℚ × ℚ) : List (ℚ × ℚ) :=
  refs.filterMap (fun r =>
    if r.cellName = childName then
      some (r.origin.1 + localCenter.1, r.origin.2 + localCenter.2)
    else none)

/-- Row/column index of a coordinate (engines.py, lines 65-66): `i + 1` for
the first cluster representative within tolerance of the value, `-1` when
there is none. -/
def rowColIdx (tolerance : ℚ) (u : List ℚ) (v : ℚ) : ℤ :=
  match u.findIdx? (fun c => decide (|v - c| ≤ tolerance)) with
  | some i => (i : ℤ) + 1
  | none => -1

/-- The row-column label `f"{r_idx}-{c_idx}"` (engines.py, line 67). -/
def rowColLabel (tolerance : ℚ) (ux uy : List ℚ) (p : ℚ × ℚ) : String :=
  toString (rowColIdx tolerance uy p.2) ++ "-" ++ toString (rowColIdx tolerance ux p.1)

/-- Row-column labeling mode of `LensEngine.process` (engines.py, lines
53-67): build threshold-merge clusters over the sorted X and Y coordinates
and pair every instance with its `"{row}-{col}"` label. -/
def lensLabelRowCol (tolerance : ℚ) (insts : List (ℚ × ℚ)) :
    List ((ℚ × ℚ) × String) :=
  let ux := get_unique tolerance (sortQ (insts.map Prod.fst))
  let uy := get_unique tolerance (sortQ (insts.map Prod.snd))
  insts.map (fun p => (p, rowColLabel tolerance ux uy p))

/-- Spec §4.3 `lookup(value, clusters)` for threshold-merge clusters: the
first cluster index whose representative is within ε of the value. -/
def specLookup (tolerance : ℚ) (clusters : List ℚ) (v : ℚ) : Option ℕ :=
  clusters.findIdx? (fun c => decide (|v - c| ≤ tolerance))

lemma pairwise_sortQ (l : List ℚ) : List.Pairwise (· ≤ ·) (sortQ l) := by
  have := List.sorted_insertionSort (α := ℚ) (· ≤ ·) l
  simpa [sortQ, List.Sorted] using this

lemma mem_sortQ {x : ℚ} {l : List ℚ} (h : x ∈ l) : x ∈ sortQ l := by
  simpa [sortQ] using h

lemma get_uniqueGo_covers (tol : ℚ) (htol : 0 ≤ tol) :
    ∀ (cs : List ℚ) (last : ℚ), List.Pairwise (· ≤ ·) (last :: cs) →
      ∀ x ∈ cs, ∃ u ∈ last :: get_uniqueGo tol last cs, |x - u| ≤ tol := by
  intro cs
  induction cs with
  | nil => intro last _ x hx; cases hx
  | cons c cs ih =>
      intro last hpw x hx
      have hlast_c : last ≤ c := (List.pairwise_cons.mp hpw).1 c (by simp)
      have hpw_c : List.Pairwise (· ≤ ·) (c :: cs) := (List.pairwise_cons.mp hpw).2
      by_cases h : c - last > tol
      · rcases List.mem_cons.mp hx with hx | hx
        · subst hx
          exact ⟨x, by simp [get_uniqueGo, h], by simpa using htol⟩
        · rcases ih c hpw_c x hx with ⟨u, hu, hxu⟩
          exact ⟨u, by simpa [get_uniqueGo, h] using (List.mem_cons_of_mem last hu), hxu⟩
      · have hpw' : List.Pairwise (· ≤ ·) (last :: cs) := by
          rw [List.pairwise_cons] at hpw ⊢
          exact ⟨fun y hy => hpw.1 y (by simp [hy]),
                 (List.pairwise_cons.mp hpw.2).2⟩
        rcases List.mem_cons.mp hx with hx | hx
        · subst hx
          refine ⟨last, by simp [get_uniqueGo, h], ?_⟩
          rw [abs_of_nonneg (by linarith)]
          linarith
        · rcases ih last hpw' x hx with ⟨u, hu, hxu⟩
          exact ⟨u, by simpa [get_uniqueGo, h] using hu, hxu⟩

lemma get_unique_covers (tol : ℚ) (htol : 0 ≤ tol) (l : List ℚ)
    (hpw : List.Pairwise (· ≤ ·) l) :
    ∀ x ∈ l, ∃ u ∈ get_unique tol l, |x - u| ≤ tol := by
  cases l with
  | nil => intro x hx; cases hx
  | cons c cs =>
      intro x hx
      rcases List.mem_cons.mp hx with hx | hx
      · subst hx
        exact ⟨x, by simp [get_unique], by simpa using htol⟩
      · simpa [get_unique] using get_uniqueGo_covers tol htol cs c hpw x hx

lemma specLookup_isSome (tol : ℚ) (htol : 0 ≤ tol) (l : List ℚ) {v : ℚ}
    (hv : v ∈ l) :
    ∃ i, specLookup tol (get_unique tol (sortQ l)) v = some i := by
  rcases get_unique_covers tol htol (sortQ l) (pairwise_sortQ l) v (mem_sortQ hv)
    with ⟨u, hu, hvu⟩
  rcases h : (get_unique tol (sortQ l)).findIdx? (fun c => decide (|v - c| ≤ tol))
    with _ | i
  · exfalso
    have := List.findIdx?_eq_none_iff.mp h u hu
    simp [hvu] at this
  · exact ⟨i, by simp [specLookup, h]⟩

lemma rowColIdx_of_lookup {tolerance : ℚ} {u : List ℚ} {v : ℚ} {i : ℕ}
    (h : specLookup tolerance u v = some i) :
    rowColIdx tolerance u v = (i : ℤ) + 1 := by
  unfold specLookup at h
  unfold rowColIdx
  rw [h]

/-- Claim C2: in row-column mode, every matching instance's label is
`"{row}-{col}"` with 1-based indices, where the row (resp. column) index is
the index of the threshold-merge Y (resp. X) cluster containing the
instance's Y (resp. X) coordinate — clusters ascending, so bottom row and
left column are 1; and in the concrete scenario (child bbox center (5,5),
origins (0,0), (100,0), (0,100), (100,100), tolerance 1) the four
instances receive labels "1-1", "1-2", "2-1", "2-2". -/
theorem lensRowCol_labels :
    (∀ (tolerance : ℚ), 0 ≤ tolerance →
      ∀ (refs : List Reference) (childName : String) (center : ℚ × ℚ),
      ∀ pr ∈ lensLabelRowCol tolerance (lensCollect refs childName center),
        ∃ r c : ℕ,
          specLookup tolerance
              (get_unique tolerance
                (sortQ ((lensCollect refs childName center).map Prod.snd)))
              pr.1.2 = some r ∧
          specLookup tolerance
              (get_unique tolerance
                (sortQ ((lensCollect refs childName center).map Prod.fst)))
              pr.1.1 = some c ∧
          pr.2 = toString ((r : ℤ) + 1) ++ "-" ++ toString ((c : ℤ) + 1)) ∧
    (lensLabelRowCol 1 (lensCollect
        [⟨"B", (0, 0), none, none, false⟩, ⟨"B", (100, 0), none, none, false⟩,
         ⟨"B", (0, 100), none, none, false⟩,
         ⟨"B", (100, 100), none, none, false⟩] "B" (5, 5))).map Prod.snd
      = ["1-1", "1-2", "2-1", "2-2"] := by
  constructor
  · intro tolerance htol refs childName center pr hpr
    rcases List.mem_map.mp hpr with ⟨p, hp, rfl⟩
    rcases specLookup_isSome tolerance htol
        ((lensCollect refs childName center).map Prod.snd)
        (List.mem_map_of_mem Prod.snd hp) with ⟨r, hr⟩
    rcases specLookup_isSome tolerance htol
        ((lensCollect refs childName center).map Prod.fst)
        (List.mem_map_of_mem Prod.fst hp) with ⟨c, hc⟩
    exact ⟨r, c, hr, hc, by
      simp only [rowColLabel, rowColIdx_of_lookup hr, rowColIdx_of_lookup hc]⟩
  · norm_num [lensLabelRowCol, lensCollect, rowColLabel, rowColIdx,
      get_unique, get_uniqueGo, sortQ, List.insertionSort, List.orderedInsert,
      List.findIdx?, List.filterMap]
    refine ⟨by decide, by decide, by decide, by decide⟩

set_option maxHeartbeats 1600000 in
/-- Witness for C2 at a concrete single-instance input. -/
theorem lensRowCol_labels_witness :
    ((((0 : ℚ), (0 : ℚ)), "1-1") ∈ lensLabelRowCol 1 (lensCollect
        [⟨"B", (0, 0), none, none, false⟩] "B" (0, 0))) ∧
    ∃ r c : ℕ,
      specLookup 1 (get_unique 1 (sortQ ((lensCollect
          [⟨"B", (0, 0), none, none, false⟩] "B" (0, 0)).map Prod.snd)))
        (0 : ℚ) = some r ∧
      specLookup 1 (get_unique 1 (sortQ ((lensCollect
          [⟨"B", (0, 0), none, none, false⟩] "B" (0, 0)).map Prod.fst)))
        (0 : ℚ) = some c ∧
      ("1-1" : String) = toString ((r : ℤ) + 1) ++ "-" ++ toString ((c : ℤ) + 1) := by
  have hmem : (((0 : ℚ), (0 : ℚ)), "1-1") ∈ lensLabelRowCol 1 (lensCollect
      [⟨"B", (0, 0), none, none, false⟩] "B" (0, 0)) := by
    norm_num [lensLabelRowCol, lensCollect, List.filterMap, rowColLabel,
      rowColIdx, get_unique, get_uniqueGo, sortQ, List.insertionSort,
      List.orderedInsert, List.findIdx?]
    decide
  refine ⟨hmem, ?_⟩
  exact lensRowCol_labels.1 1 (by norm_num)
    [⟨"B", (0, 0), none, none, false⟩] "B" (0, 0) (((0 : ℚ), (0 : ℚ)), "1-1") hmem

/-- Sort direction flag of the sequential labeling mode. -/
inductive SortDir where
  | y_first
  | x_first
deriving DecidableEq

/-- Python division: raises `ZeroDivisionError` on a zero divisor. -/
def pyDiv (a b : ℚ) : Except PyErr ℚ :=
  if b = 0 then Except.error PyErr.zeroDivisionError else Except.ok (a / b)

/-- Python `f"{n:0{width}d}"` for a nonnegative `n`: decimal digits,
left-padded with zeros to the given minimum width. -/
def padZero (width : ℕ) (n : ℕ) : String :=
  let s := toString n
  String.mk (List.replicate (width - s.length) '0') ++ s

/-- Primary sort coordinate of an instance (engines.py, lines 69-72). -/
def primaryCoord (dir : SortDir) (p : ℚ × ℚ) : ℚ :=
  match dir with
  | SortDir.y_first => p.2
  | SortDir.x_first => p.1

/-- Secondary sort coordinate of an instance (engines.py, lines 69-72). -/
def secondaryCoord (dir : SortDir) (p : ℚ × ℚ) : ℚ :=
  match dir with
  | SortDir.y_first => p.1
  | SortDir.x_first => p.2

/-- Key computation pass of Python `list.sort(key=...)` (CPython computes
the key of every element, in list order, before comparing any): each
instance is paired with `round(primary / tolerance)`; a zero tolerance
raises `ZeroDivisionError` at the first instance. -/
def seqKeyed (tolerance : ℚ) (dir : SortDir) :
    List (ℚ × ℚ) → Except PyErr (List ((ℚ × ℚ) × ℤ))
  | [] => Except.ok []
  | p :: ps => do
      let q ← pyDiv (primaryCoord dir p) tolerance
      let rest ← seqKeyed tolerance dir ps
      pure ((p, pyRound q) :: rest)

/-- Lexicographic comparison of the sequential sort keys
`(round(primary / tolerance), secondary)`. -/
def seqKeyLe (k1 k2 : ℤ × ℚ) : Prop :=
  k1.1 < k2.1 ∨ (k1.1 = k2.1 ∧ k1.2 ≤ k2.2)

instance : DecidableRel seqKeyLe := fun k1 k2 => by
  unfold seqKeyLe; infer_instance

lemma seqKeyLe_total (k1 k2 : ℤ × ℚ) : seqKeyLe k1 k2 ∨ seqKeyLe k2 k1 := by
  rcases lt_trichotomy k1.1 k2.1 with h | h | h
  · exact Or.inl (Or.inl h)
  · rcases le_total k1.2 k2.2 with h2 | h2
    · exact Or.inl (Or.inr ⟨h, h2⟩)
    · exact Or.inr (Or.inr ⟨h.symm, h2⟩)
  · exact Or.inr (Or.inl h)

lemma seqKeyLe_trans {k1 k2 k3 : ℤ × ℚ} (h12 : seqKeyLe k1 k2)
    (h23 : seqKeyLe k2 k3) : seqKeyLe k1 k3 := by
  rcases h12 with h12 | ⟨he12, hle12⟩
  · rcases h23 with h23 | ⟨he23, _⟩
    · exact Or.inl (h12.trans h23)
    · exact Or.inl (he23 ▸ h12)
  · rcases h23 with h23 | ⟨he23, hle23⟩
    · exact Or.inl (he12 ▸ h23)
    · exact Or.inr ⟨he12.trans he23, hle12.trans hle23⟩

/-- Label assignment loop of the sequential mode (engines.py, lines 73-74):
1-based position in sorted order, rendered zero-padded. -/
def assignSeq (width : ℕ) : ℕ → List (ℚ × ℚ) → List ((ℚ × ℚ) × String)
  | _, [] => []
  | n, p :: ps => (p, padZero width n) :: assignSeq width (n + 1) ps

/-- The comparison actually used to sort the keyed instances: lexicographic
on `(key, secondary coordinate)`. -/
def seqRel (dir : SortDir) (a b : (ℚ × ℚ) × ℤ) : Prop :=
  seqKeyLe (a.2, secondaryCoord dir a.1) (b.2, secondaryCoord dir b.1)

instance (dir : SortDir) : DecidableRel (seqRel dir) := fun a b => by
  unfold seqRel; infer_instance

instance (dir : SortDir) : IsTotal ((ℚ × ℚ) × ℤ) (seqRel dir) :=
  ⟨fun _ _ => seqKeyLe_total _ _⟩

instance (dir : SortDir) : IsTrans ((ℚ × ℚ) × ℤ) (seqRel dir) :=
  ⟨fun _ _ _ hab hbc => seqKeyLe_trans hab hbc⟩

/-- Sequential-index labeling mode of `LensEngine.process` (engines.py,
lines 68-74): sort by `(round(primary / tolerance), secondary)`, both
ascending, then assign 1-based zero-padded labels in sorted order. -/
def lensLabelSeq (tolerance : ℚ) (dir : SortDir) (width : ℕ)
    (insts : List (ℚ × ℚ)) : Except PyErr (List ((ℚ × ℚ) × String)) := do
  let keyed ← seqKeyed tolerance dir insts
  let sorted := keyed.insertionSort (seqRel dir)
  pure (assignSeq width 1 (sorted.map Prod.fst))

/-- The sequential sort key as a function of the instance position. -/
def seqKey (tolerance : ℚ) (dir : SortDir) (p : ℚ × ℚ) : ℤ × ℚ :=
  (pyRound (primaryCoord dir p / tolerance), secondaryCoord dir p)

lemma seqKeyed_ok (tolerance : ℚ) (htol : tolerance ≠ 0) (dir : SortDir) :
    ∀ insts : List (ℚ × ℚ),
      seqKeyed tolerance dir insts
        = Except.ok (insts.map (fun p =>
            (p, pyRound (primaryCoord dir p / tolerance)))) := by
  intro insts
  induction insts with
  | nil => rfl
  | cons p ps ih =>
      simp [seqKeyed, pyDiv, htol, ih]
      rfl

lemma assignSeq_map_fst (width : ℕ) :
    ∀ (n : ℕ) (l : List (ℚ × ℚ)), (assignSeq width n l).map Prod.fst = l := by
  intro n l
  induction l generalizing n with
  | nil => rfl
  | cons p ps ih => simp [assignSeq, ih]

lemma assignSeq_map_snd (width : ℕ) :
    ∀ (n : ℕ) (l : List (ℚ × ℚ)),
      (assignSeq width n l).map Prod.snd
        = (List.range l.length).map (fun i => padZero width (n + i)) := by
  intro n l
  induction l generalizing n with
  | nil => rfl
  | cons p ps ih =>
      simp only [assignSeq, List.map_cons, ih, List.length_cons,
        List.range_succ_eq_map, List.map_map]
      refine congrArg₂ _ (by simp) ?_
      refine List.map_congr_left ?_
      intro i _
      simp [Function.comp]
      ring_nf

/-- Claim C3: in sequential-index mode, for every instance list and tolerance
t ≠ 0, the computation succeeds, the output instances are a permutation of
the input sorted by `(round(primary / t), perpendicular)` lexicographically
ascending, and the assigned labels are exactly 1..N in sorted order, each
zero-padded to the caller's minimum width. -/
theorem lensSeq_labels (tolerance : ℚ) (htol : tolerance ≠ 0) (dir : SortDir)
    (width : ℕ) (insts : List (ℚ × ℚ)) :
    ∃ out : List ((ℚ × ℚ) × String),
      lensLabelSeq tolerance dir width insts = Except.ok out ∧
      (out.map Prod.fst).Perm insts ∧
      (out.map Prod.fst).Pairwise (fun p q =>
        seqKeyLe (seqKey tolerance dir p) (seqKey tolerance dir q)) ∧
      out.map Prod.snd
        = (List.range insts.length).map (fun i => padZero width (1 + i)) := by
  have hk := seqKeyed_ok tolerance htol dir insts
  have hcomp : (Prod.fst ∘ fun p : ℚ × ℚ =>
      (p, pyRound (primaryCoord dir p / tolerance))) = id := by
    funext p
    rfl
  have hperm : ((List.map (fun p : ℚ × ℚ =>
        (p, pyRound (primaryCoord dir p / tolerance))) insts).insertionSort
          (seqRel dir)).Perm
      (List.map (fun p : ℚ × ℚ =>
        (p, pyRound (primaryCoord dir p / tolerance))) insts) :=
    List.perm_insertionSort (seqRel dir) _
  have hfst : (((List.map (fun p : ℚ × ℚ =>
        (p, pyRound (primaryCoord dir p / tolerance))) insts).insertionSort
          (seqRel dir)).map Prod.fst).Perm insts := by
    have h2 := hperm.map Prod.fst
    rwa [List.map_map, hcomp, List.map_id] at h2
  refine ⟨assignSeq width 1 (((List.map (fun p : ℚ × ℚ =>
      (p, pyRound (primaryCoord dir p / tolerance))) insts).insertionSort
        (seqRel dir)).map Prod.fst), ?_, ?_, ?_, ?_⟩
  · unfold lensLabelSeq
    rw [hk]
    rfl
  · rw [assignSeq_map_fst]
    exact hfst
  · rw [assignSeq_map_fst]
    rw [List.pairwise_map]
    have hsorted := List.sorted_insertionSort (seqRel dir)
      (List.map (fun p : ℚ × ℚ =>
        (p, pyRound (primaryCoord dir p / tolerance))) insts)
    refine List.Pairwise.imp_of_mem ?_ hsorted
    intro a b ha hb hab
    have hkey : ∀ x ∈ (List.map (fun p : ℚ × ℚ =>
        (p, pyRound (primaryCoord dir p / tolerance))) insts).insertionSort
          (seqRel dir),
        ((x.2 : ℤ), secondaryCoord dir x.1) = seqKey tolerance dir x.1 := by
      intro x hx
      rcases List.mem_map.mp ((List.mem_insertionSort _).mp hx) with ⟨p, _, rfl⟩
      simp [seqKey]
    have h1 := hkey a ha
    have h2 := hkey b hb
    unfold seqRel at hab
    rwa [h1, h2] at hab
  · rw [assignSeq_map_snd, hfst.length_eq]

/-- Witness for C3 at a concrete two-instance input. -/
theorem lensSeq_labels_witness :
    (1 : ℚ) ≠ 0 ∧
    ∃ out : List ((ℚ × ℚ) × String),
      lensLabelSeq 1 SortDir.x_first 2 [(0, 0), (100, 0)] = Except.ok out ∧
      (out.map Prod.fst).Perm [(0, 0), (100, 0)] ∧
      (out.map Prod.fst).Pairwise (fun p q =>
        seqKeyLe (seqKey 1 SortDir.x_first p) (seqKey 1 SortDir.x_first q)) ∧
      out.map Prod.snd
        = (List.range ([(0, 0), (100, 0)] : List (ℚ × ℚ)).length).map
            (fun i => padZero 2 (1 + i)) :=
  ⟨by norm_num, lensSeq_labels 1 (by norm_num) SortDir.x_first 2
    [(0, 0), (100, 0)]⟩

/-- Python `min(xs, key=f)` on the nonempty list `a :: l`: scan left to
right, replacing the current minimum only on strict improvement, so the
first minimum wins on ties. -/
def pyMinBy {α : Type} (key : α → ℚ) (a : α) (l : List α) : α :=
  l.foldl (fun b c => if key c < key b then c else b) a

/-- Squared Euclidean distance (engines.py, line 170). -/
def dist2 (a b : ℚ × ℚ) : ℚ := (a.1 - b.1) ^ 2 + (a.2 - b.2) ^ 2

/-- Arithmetic mean of a point list (engines.py, line 169). -/
def meanPt (l : List (ℚ × ℚ)) : ℚ × ℚ :=
  ((l.map Prod.fst).sum / l.length, (l.map Prod.snd).sum / l.length)

/-- Remove adjacent duplicates of an (already sorted) list; composed with a
sort this is Python `sorted(list(set(...)))`, the ascending enumeration of
the distinct values. -/
def dedupSorted : List ℚ → List ℚ
  | [] => []
  | [a] => [a]
  | a :: b :: t => if a = b then dedupSorted (b :: t) else a :: dedupSorted (b :: t)

/-- Fixed-precision-rounding ClusterSet (engines.py, lines 172-174):
`sorted(list(set([round(v, 3) for v in values])))`. -/
def shotUniq (values : List ℚ) : List ℚ := dedupSorted (sortQ (values.map round3))

/-- The center instance of `ShotEngine.process` (engines.py, lines 167-170):
the anchor minimizing squared Euclidean distance to the mean of all
anchors, first minimum winning ties (Python `min`). -/
def shotCenter (anchors : List (ℚ × ℚ)) : ℚ × ℚ :=
  match anchors with
  | [] => (0, 0)
  | a :: as => pyMinBy (fun p => dist2 p (meanPt (a :: as))) a as

/-- Relative grid-offset labeling of `ShotEngine.process` (engines.py,
lines 167-183): build the rounded X/Y ClusterSets, locate the center
instance's cluster indices, and label each instance `f"({ix},{iy})"` with
its cluster indices relative to the center's.  (`List.indexOf` is Python
`list.index`; by construction the looked-up value is always present.) -/
def shotLabels (anchors : List (ℚ × ℚ)) : List ((ℚ × ℚ) × String) :=
  match anchors with
  | [] => []
  | a :: as =>
      let u_x := shotUniq ((a :: as).map Prod.fst)
      let u_y := shotUniq ((a :: as).map Prod.snd)
      let center := shotCenter (a :: as)
      let base_ix := u_x.indexOf (round3 center.1)
      let base_iy := u_y.indexOf (round3 center.2)
      (a :: as).map (fun p =>
        (p, "(" ++ toString ((u_x.indexOf (round3 p.1) : ℤ) - (base_ix : ℤ))
            ++ "," ++ toString ((u_y.indexOf (round3 p.2) : ℤ) - (base_iy : ℤ))
            ++ ")"))

lemma dedupSorted_head :
    ∀ (t : List ℚ) (b : ℚ), ∃ t', dedupSorted (b :: t) = b :: t' := by
  intro t
  induction t with
  | nil => intro b; exact ⟨[], rfl⟩
  | cons c t0 ih =>
      intro b
      by_cases h : b = c
      · rcases ih c with ⟨t', ht'⟩
        exact ⟨t', by rw [dedupSorted, if_pos h, ht', h]⟩
      · exact ⟨dedupSorted (c :: t0), by rw [dedupSorted, if_neg h]⟩

lemma dedupSorted_chain :
    ∀ (l : List ℚ), List.Pairwise (· ≤ ·) l →
      List.Chain' (· < ·) (dedupSorted l) := by
  intro l
  induction l with
  | nil => intro _; simp [dedupSorted]
  | cons a t ih =>
      intro hpw
      cases t with
      | nil => simp [dedupSorted]
      | cons b t0 =>
          have hab : a ≤ b := (List.pairwise_cons.mp hpw).1 b (by simp)
          have htail := (List.pairwise_cons.mp hpw).2
          by_cases h : a = b
          · rw [dedupSorted, if_pos h]
            exact ih htail
          · rw [dedupSorted, if_neg h]
            rcases dedupSorted_head t0 b with ⟨t', ht'⟩
            rw [ht']
            refine List.Chain'.cons (lt_of_le_of_ne hab h) ?_
            rw [← ht']
            exact ih htail

lemma dedupSorted_mem :
    ∀ (l : List ℚ) (x : ℚ), x ∈ dedupSorted l ↔ x ∈ l := by
  intro l
  induction l with
  | nil => intro x; simp [dedupSorted]
  | cons a t ih =>
      intro x
      cases t with
      | nil => simp [dedupSorted]
      | cons b t0 =>
          by_cases h : a = b
          · rw [dedupSorted, if_pos h]
            rw [ih x]
            subst h
            simp
          · rw [dedupSorted, if_neg h]
            simp only [List.mem_cons] at *
            rw [ih x]

lemma shotUniq_chain (values : List ℚ) :
    List.Chain' (· < ·) (shotUniq values) :=
  dedupSorted_chain _ (pairwise_sortQ (values.map round3))

lemma shotUniq_mem (values : List ℚ) (v : ℚ) :
    v ∈ shotUniq values ↔ v ∈ values.map round3 := by
  rw [shotUniq, dedupSorted_mem]
  constructor
  · intro h
    simpa [sortQ] using h
  · intro h
    exact mem_sortQ h

lemma pyMinBy_step {α : Type} (key : α → ℚ) (a b : α) (t : List α) :
    pyMinBy key a (b :: t) = pyMinBy key (if key b < key a then b else a) t :=
  rfl

lemma pyMinBy_split {α : Type} (key : α → ℚ) :
    ∀ (l : List α) (a : α),
      ∃ l1 l2, a :: l = l1 ++ pyMinBy key a l :: l2 ∧
        (∀ x ∈ l1, key (pyMinBy key a l) < key x) ∧
        (∀ x ∈ a :: l, key (pyMinBy key a l) ≤ key x) := by
  intro l
  induction l with
  | nil =>
      intro a
      exact ⟨[], [], rfl, by simp, by simp [pyMinBy]⟩
  | cons b t ih =>
      intro a
      by_cases hba : key b < key a
      · rw [pyMinBy_step, if_pos hba]
        rcases ih b with ⟨l1, l2, hsplit, hlt, hle⟩
        refine ⟨a :: l1, l2, ?_, ?_, ?_⟩
        · rw [List.cons_append, ← hsplit]
        · intro x hx
          rcases List.mem_cons.mp hx with rfl | hx
          · exact lt_of_le_of_lt (hle b (by simp)) hba
          · exact hlt x hx
        · intro x hx
          rcases List.mem_cons.mp hx with rfl | hx
          · exact le_of_lt (lt_of_le_of_lt (hle b (by simp)) hba)
          · exact hle x hx
      · rw [pyMinBy_step, if_neg hba]
        have hab : key a ≤ key b := le_of_not_lt hba
        rcases ih a with ⟨l1, l2, hsplit, hlt, hle⟩
        cases l1 with
        | nil =>
            simp only [List.nil_append] at hsplit
            have hm : pyMinBy key a t = a := (List.cons.injEq _ _ _ _ ▸ hsplit).1.symm
            refine ⟨[], b :: t, ?_, by simp, ?_⟩
            · simp [hm]
            · intro x hx
              rcases List.mem_cons.mp hx with rfl | hx
              · rw [hm]
              · rcases List.mem_cons.mp hx with rfl | hx
                · rw [hm]; exact hab
                · exact hle x (by simp [hx])
        | cons a0 l1' =>
            simp only [List.cons_append] at hsplit
            have ha0 : a = a0 := (List.cons.injEq _ _ _ _ ▸ hsplit).1
            have ht : t = l1' ++ pyMinBy key a t :: l2 :=
              (List.cons.injEq _ _ _ _ ▸ hsplit).2
            have hma : key (pyMinBy key a t) < key a := by
              have := hlt a0 (by simp)
              rwa [← ha0] at this
            refine ⟨a :: b :: l1', l2, ?_, ?_, ?_⟩
            · rw [List.cons_append, List.cons_append, ← ht]
            · intro x hx
              rcases List.mem_cons.mp hx with rfl | hx
              · exact hma
              · rcases List.mem_cons.mp hx with rfl | hx
                · exact lt_of_lt_of_le hma hab
                · exact hlt x (by simp [hx])
            · intro x hx
              rcases List.mem_cons.mp hx with rfl | hx
              · exact le_of_lt hma
              · rcases List.mem_cons.mp hx with rfl | hx
                · exact le_of_lt (lt_of_lt_of_le hma hab)
                · exact hle x (List.mem_cons_of_mem a hx)

/-- Claim C4: in relative grid-offset mode with full-transform anchors: the
center instance is the first anchor (in list order) minimizing the distance
to the arithmetic mean of all anchors (squared distance, equivalent to
Euclidean distance, with strictly greater values at all earlier anchors),
the X and Y ClusterSets are the strictly increasing enumerations of the
distinct 3-decimal roundings of the anchor coordinates, and every
instance's label is `"(dx,dy)"` with dx, dy its X/Y cluster indices minus
the center's. -/
theorem shotOffset_labels (anchors : List (ℚ × ℚ)) (hne : anchors ≠ []) :
    (∃ l1 l2, anchors = l1 ++ shotCenter anchors :: l2 ∧
      (∀ x ∈ l1,
        dist2 (shotCenter anchors) (meanPt anchors) < dist2 x (meanPt anchors)) ∧
      (∀ x ∈ anchors,
        dist2 (shotCenter anchors) (meanPt anchors) ≤ dist2 x (meanPt anchors))) ∧
    List.Chain' (· < ·) (shotUniq (anchors.map Prod.fst)) ∧
    (∀ v, v ∈ shotUniq (anchors.map Prod.fst) ↔ ∃ p ∈ anchors, round3 p.1 = v) ∧
    List.Chain' (· < ·) (shotUniq (anchors.map Prod.snd)) ∧
    (∀ v, v ∈ shotUniq (anchors.map Prod.snd) ↔ ∃ p ∈ anchors, round3 p.2 = v) ∧
    shotLabels anchors = anchors.map (fun p =>
      (p, "(" ++ toString
              (((shotUniq (anchors.map Prod.fst)).indexOf (round3 p.1) : ℤ)
            - ((shotUniq (anchors.map Prod.fst)).indexOf
                (round3 (shotCenter anchors).1) : ℤ))
          ++ "," ++ toString
              (((shotUniq (anchors.map Prod.snd)).indexOf (round3 p.2) : ℤ)
            - ((shotUniq (anchors.map Prod.snd)).indexOf
                (round3 (shotCenter anchors).2) : ℤ))
          ++ ")")) := by
  cases anchors with
  | nil => exact absurd rfl hne
  | cons a as =>
      refine ⟨?_, shotUniq_chain _, ?_, shotUniq_chain _, ?_, ?_⟩
      · have h := pyMinBy_split (fun p => dist2 p (meanPt (a :: as))) as a
        simpa [shotCenter] using h
      · intro v
        rw [shotUniq_mem]
        simp only [List.mem_map, List.map_map]
        constructor
        · rintro ⟨x, hx, rfl⟩
          exact ⟨x, hx, rfl⟩
        · rintro ⟨p, hp, rfl⟩
          exact ⟨p, hp, rfl⟩
      · intro v
        rw [shotUniq_mem]
        simp only [List.mem_map, List.map_map]
        constructor
        · rintro ⟨x, hx, rfl⟩
          exact ⟨x, hx, rfl⟩
        · rintro ⟨p, hp, rfl⟩
          exact ⟨p, hp, rfl⟩
      · rfl

/-- Witness for C4 at a concrete single-anchor input. -/
theorem shotOffset_labels_witness :
    ([((1 : ℚ), (2 : ℚ))] ≠ []) ∧
    ((∃ l1 l2, [((1 : ℚ), (2 : ℚ))] = l1 ++ shotCenter [((1 : ℚ), (2 : ℚ))] :: l2 ∧
      (∀ x ∈ l1,
        dist2 (shotCenter [((1 : ℚ), (2 : ℚ))]) (meanPt [((1 : ℚ), (2 : ℚ))])
          < dist2 x (meanPt [((1 : ℚ), (2 : ℚ))])) ∧
      (∀ x ∈ [((1 : ℚ), (2 : ℚ))],
        dist2 (shotCenter [((1 : ℚ), (2 : ℚ))]) (meanPt [((1 : ℚ), (2 : ℚ))])
          ≤ dist2 x (meanPt [((1 : ℚ), (2 : ℚ))]))) ∧
    List.Chain' (· < ·) (shotUniq (([((1 : ℚ), (2 : ℚ))]).map Prod.fst)) ∧
    (∀ v, v ∈ shotUniq (([((1 : ℚ), (2 : ℚ))]).map Prod.fst) ↔
      ∃ p ∈ [((1 : ℚ), (2 : ℚ))], round3 p.1 = v) ∧
    List.Chain' (· < ·) (shotUniq (([((1 : ℚ), (2 : ℚ))]).map Prod.snd)) ∧
    (∀ v, v ∈ shotUniq (([((1 : ℚ), (2 : ℚ))]).map Prod.snd) ↔
      ∃ p ∈ [((1 : ℚ), (2 : ℚ))], round3 p.2 = v) ∧
    shotLabels [((1 : ℚ), (2 : ℚ))] = ([((1 : ℚ), (2 : ℚ))]).map (fun p =>
      (p, "(" ++ toString
              (((shotUniq (([((1 : ℚ), (2 : ℚ))]).map Prod.fst)).indexOf
                  (round3 p.1) : ℤ)
            - ((shotUniq (([((1 : ℚ), (2 : ℚ))]).map Prod.fst)).indexOf
                (round3 (shotCenter [((1 : ℚ), (2 : ℚ))]).1) : ℤ))
          ++ "," ++ toString
              (((shotUniq (([((1 : ℚ), (2 : ℚ))]).map Prod.snd)).indexOf
                  (round3 p.2) : ℤ)
            - ((shotUniq (([((1 : ℚ), (2 : ℚ))]).map Prod.snd)).indexOf
                (round3 (shotCenter [((1 : ℚ), (2 : ℚ))]).2) : ℤ))
          ++ ")"))) :=
  ⟨by simp, shotOffset_labels [((1 : ℚ), (2 : ℚ))] (by simp)⟩

lemma pyRound_lb (q : ℚ) : ⌊q⌋ ≤ pyRound q := by
  simp only [pyRound]
  split_ifs <;> omega

lemma pyRound_ub (q : ℚ) : pyRound q ≤ ⌊q⌋ + 1 := by
  simp only [pyRound]
  split_ifs <;> omega

lemma pyRound_mono {x y : ℚ} (hxy : x ≤ y) : pyRound x ≤ pyRound y := by
  have hf : ⌊x⌋ ≤ ⌊y⌋ := Int.floor_le_floor hxy
  rcases lt_or_eq_of_le hf with hlt | hEq
  · calc pyRound x ≤ ⌊x⌋ + 1 := pyRound_ub x
      _ ≤ ⌊y⌋ := by omega
      _ ≤ pyRound y := pyRound_lb y
  · have hcast : ((⌊x⌋ : ℚ)) = ((⌊y⌋ : ℚ)) := by exact_mod_cast hEq
    have hrxy : x - ((⌊x⌋ : ℚ)) ≤ y - ((⌊y⌋ : ℚ)) := by linarith
    simp only [pyRound]
    split_ifs <;> first | omega | (exfalso; linarith)

lemma round3_mono {x y : ℚ} (hxy : x ≤ y) : round3 x ≤ round3 y := by
  have h := pyRound_mono (mul_le_mul_of_nonneg_right hxy (by norm_num : (0:ℚ) ≤ 1000))
  have hc : ((pyRound (x * 1000) : ℚ)) ≤ ((pyRound (y * 1000) : ℚ)) := by
    exact_mod_cast h
  unfold round3
  exact div_le_div_of_nonneg_right hc (by norm_num) |>.trans_eq rfl

/-- One extraction record (engines.py, lines 108-114): bounding-box center,
width and height of a matching primitive. -/
structure ExtRecord where
  cx : ℚ
  cy : ℚ
  w : ℚ
  h : ℚ
deriving DecidableEq

/-- Primitive filtering of `PadEngine.run_analysis` (engines.py, lines
105-114): keep polygons whose (layer, datatype) match exactly and which
have a bounding box, recording center/width/height. -/
def extractRecords (polys : List Polygon) (layer datatype : ℤ) :
    List ExtRecord :=
  polys.filterMap (fun p =>
    if p.layer = layer ∧ p.datatype = datatype then
      (polyBBox p).map (fun bb =>
        { cx := (bb.1.1 + bb.2.1) / 2, cy := (bb.1.2 + bb.2.2) / 2,
          w := bb.2.1 - bb.1.1, h := bb.2.2 - bb.1.2 })
    else none)

/-- Lexicographic comparison on pairs of rationals. -/
def lexQLe (k1 k2 : ℚ × ℚ) : Prop :=
  k1.1 < k2.1 ∨ (k1.1 = k2.1 ∧ k1.2 ≤ k2.2)

instance : DecidableRel lexQLe := fun k1 k2 => by
  unfold lexQLe; infer_instance

lemma lexQLe_total (k1 k2 : ℚ × ℚ) : lexQLe k1 k2 ∨ lexQLe k2 k1 := by
  rcases lt_trichotomy k1.1 k2.1 with h | h | h
  · exact Or.inl (Or.inl h)
  · rcases le_total k1.2 k2.2 with h2 | h2
    · exact Or.inl (Or.inr ⟨h, h2⟩)
    · exact Or.inr (Or.inr ⟨h.symm, h2⟩)
  · exact Or.inr (Or.inl h)

lemma lexQLe_trans {k1 k2 k3 : ℚ × ℚ} (h12 : lexQLe k1 k2)
    (h23 : lexQLe k2 k3) : lexQLe k1 k3 := by
  rcases h12 with h12 | ⟨he12, hle12⟩
  · rcases h23 with h23 | ⟨he23, _⟩
    · exact Or.inl (h12.trans h23)
    · exact Or.inl (he23 ▸ h12)
  · rcases h23 with h23 | ⟨he23, hle23⟩
    · exact Or.inl (he12 ▸ h23)
    · exact Or.inr ⟨he12.trans he23, hle12.trans hle23⟩

/-- The sort comparison of `PadEngine.run_analysis` (engines.py, line 116)
and `CellInfoEngine.process` (line 260): key `(-round(cy, 3), cx)`,
lexicographic ascending.  Note the secondary key is the raw center X. -/
def padRel (a b : ExtRecord) : Prop :=
  lexQLe (-round3 a.cy, a.cx) (-round3 b.cy, b.cx)

instance : DecidableRel padRel := fun a b => by
  unfold padRel; infer_instance

instance : IsTotal ExtRecord padRel := ⟨fun _ _ => lexQLe_total _ _⟩

instance : IsTrans ExtRecord padRel :=
  ⟨fun _ _ _ hab hbc => lexQLe_trans hab hbc⟩

/-- The spec's canonical reading order: primary key `-round(centerY, 3)`
ascending (i.e. descending Y), secondary key `round(centerX, 3)`
ascending. -/
def specReadingOrder (a b : ExtRecord) : Prop :=
  lexQLe (-round3 a.cy, round3 a.cx) (-round3 b.cy, round3 b.cx)

/-- Sorting step of `PadEngine.run_analysis` (engines.py, line 116). -/
def padSorted (recs : List ExtRecord) : List ExtRecord :=
  recs.insertionSort padRel

/-- Embedding of `PadEngine.run_analysis` (engines.py, lines 99-121) restricted to its
computational core: extract matching records from the flattened cell's
polygons and sort them; raise `ValueError` when the cell name is unknown
or no primitive matches.  (Flattening is performed by gdstk before this
code runs — the spec makes a fully flattened input a caller-owned
precondition — so the flattened cell is modelled as the polygon list the
engine iterates over; report/image writing is external I/O and lies
outside the modelled core.) -/
def run_analysis (cells : List (String × Cell)) (cellName : String)
    (layer datatype : ℤ) : Except PyErr (List ExtRecord) :=
  match cells.lookup cellName with
  | none =>
      Except.error (PyErr.valueError ("Cell '" ++ cellName ++ "' 未在库中找到。"))
  | some cell =>
      let recs := extractRecords cell.polygons layer datatype
      if recs = [] then Except.error (PyErr.valueError "未找到数据。")
      else Except.ok (padSorted recs)

lemma padRel_imp_specReadingOrder {a b : ExtRecord} (h : padRel a b) :
    specReadingOrder a b := by
  rcases h with h | ⟨he, hle⟩
  · exact Or.inl h
  · exact Or.inr ⟨he, round3_mono hle⟩

/-- Claim C1: whenever the extraction succeeds, it returns exactly the
(layer, datatype)-matching primitives' records — centers taken from each
primitive's bounding box — as a permutation of the filtered list, sorted
with primary key `-round(centerY, 3)` ascending (top row first) and
secondary key `round(centerX, 3)` ascending. -/
theorem padExtraction_sorted (cells : List (String × Cell))
    (cellName : String) (layer datatype : ℤ) (cell : Cell)
    (hcell : cells.lookup cellName = some cell)
    (out : List ExtRecord)
    (h : run_analysis cells cellName layer datatype = Except.ok out) :
    out.Perm (extractRecords cell.polygons layer datatype) ∧
    out.Pairwise specReadingOrder := by
  rw [run_analysis, hcell] at h
  dsimp only at h
  by_cases hempty : extractRecords cell.polygons layer datatype = []
  · rw [if_pos hempty] at h
    cases h
  · rw [if_neg hempty] at h
    have hout : out = padSorted (extractRecords cell.polygons layer datatype) :=
      (Except.ok.injEq _ _ ▸ h).symm
    subst hout
    constructor
    · exact List.perm_insertionSort padRel _
    · exact (List.sorted_insertionSort padRel _).imp_of_mem
        (fun _ _ h => padRel_imp_specReadingOrder h)

/-- Witness for C1 at a concrete one-polygon cell. -/
theorem padExtraction_sorted_witness :
    ([({ cx := 1, cy := 1, w := 2, h := 2 } : ExtRecord)].Perm
      (extractRecords ([⟨1, 0, [(0, 0), (2, 2)]⟩] : List Polygon) 1 0)) ∧
    List.Pairwise specReadingOrder
      [({ cx := 1, cy := 1, w := 2, h := 2 } : ExtRecord)] :=
  padExtraction_sorted [("TOP", ⟨[⟨1, 0, [(0, 0), (2, 2)]⟩], []⟩)] "TOP" 1 0
    ⟨[⟨1, 0, [(0, 0), (2, 2)]⟩], []⟩ rfl
    [({ cx := 1, cy := 1, w := 2, h := 2 } : ExtRecord)]
    (by norm_num [run_analysis, extractRecords, polyBBox, cornerStep,
      padSorted, List.insertionSort, List.orderedInsert, List.filterMap,
      List.lookup])

/-- Labeling mode flag of `LensEngine.process` (the code branches on
`mode == "row_col"`; any other string selects sequential indexing). -/
inductive LensMode where
  | row_col
  | sequential
deriving DecidableEq

/-- Embedding of the `cell_b.bounding_box()` center with the code's `if bbox else (0,0)`
fallback (engines.py, lines 39-40).  The bounding box is modelled over the
cell's own polygons (hierarchy resolution inside gdstk's bounding-box query
is outside the modelled core). -/
def cellBBoxCenter (c : Cell) : ℚ × ℚ :=
  match unionBBox c.polygons with
  | some bb => bboxCenter bb
  | none => (0, 0)

/-- Embedding of `LensEngine.process` (engines.py, lines 30-95): name checks, instance
collection, emptiness check, labeling (row-column or sequential), then
per-instance text placement into the parent cell.  `textFn` models
`gdstk.text` at the caller's size/layer/datatype.  On success the labeled
instances and the parent's final polygon list are returned; every failure
is raised before any label geometry is appended. -/
def lensProcess (textFn : String → List Polygon)
    (cells : List (String × Cell)) (parent_name child_name : String)
    (offset : ℚ × ℚ) (tolerance : ℚ) (mode : LensMode) (sort_dir : SortDir)
    (digit_width : ℕ) :
    Except PyErr (List ((ℚ × ℚ) × String) × List Polygon) :=
  match cells.lookup parent_name, cells.lookup child_name with
  | some cell_a, some cell_b =>
      let local_center := cellBBoxCenter cell_b
      let instances := lensCollect cell_a.references child_name local_center
      if instances = [] then Except.error (PyErr.valueError "没有找到实例")
      else do
        let labeled ←
          match mode with
          | LensMode.row_col => Except.ok (lensLabelRowCol tolerance instances)
          | LensMode.sequential =>
              lensLabelSeq tolerance sort_dir digit_width instances
        Except.ok (labeled, labeled.foldl (fun acc pl =>
          placeText (pl.1.1 + offset.1, pl.1.2 + offset.2) (textFn pl.2) acc)
          cell_a.polygons)
  | _, _ => Except.error (PyErr.valueError "Cell 未找到")

/-- One matching instance of `ShotEngine.process`: full-transform sort
anchor, full-transform text anchor, and the reference's magnification. -/
structure ShotInst where
  sortPt : ℚ × ℚ
  textPt : ℚ × ℚ
  magnification : Option ℚ
deriving DecidableEq

/-- Embedding of `ShotEngine.process` (engines.py, lines 155-194): existence check for
the parent, collection of references resolving to the target name (each
with full-transform anchors), emptiness check, relative grid-offset
labeling, then per-instance auto-fit text placement.  `cs` supplies
cosine/sine, `textFn` models `gdstk.text` at a given size. -/
def shotProcess (cs : ℚ → ℚ × ℚ) (textFn : String → ℚ → List Polygon)
    (cells : List (String × Cell)) (cell_a_name cell_b_name : String)
    (text_anchor text_area : ℚ × ℚ) :
    Except PyErr (List ((ℚ × ℚ) × String) × List Polygon) :=
  match cells.lookup cell_a_name with
  | none => Except.error (PyErr.valueError (cell_a_name ++ " 不存在"))
  | some cell_a =>
      let insts : List ShotInst := cell_a.references.filterMap (fun r =>
        if r.cellName = cell_b_name then
          some ⟨transform_point cs (0, 0) r, transform_point cs text_anchor r,
                r.magnification⟩
        else none)
      if insts = [] then Except.error (PyErr.valueError "未找到引用")
      else
        let labeled := shotLabels (insts.map ShotInst.sortPt)
        Except.ok (labeled, (labeled.zip insts).foldl (fun acc pr =>
          placeText pr.2.textPt
            (textFn pr.1.2
              (shotSize text_area.1 text_area.2 pr.1.2.length
                pr.2.magnification))
            acc) cell_a.polygons)

/-- Claim C8: every numbering operation fails with the not-found error when
the looked-up cell name is absent or when no reference of the parent
resolves to the target, and the extraction operation fails with the
not-found error when zero primitives match the (layer, datatype) filter.
Each failure is the operation's entire result — the `Except.error` value
carries no mutated cell and no output, so it occurs before any label
geometry is committed or any output is written. -/
theorem notFound_failures :
    (∀ (textFn : String → List Polygon) (cells : List (String × Cell))
        (parent_name child_name : String) (offset : ℚ × ℚ) (tolerance : ℚ)
        (mode : LensMode) (sort_dir : SortDir) (digit_width : ℕ),
      cells.lookup parent_name = none ∨ cells.lookup child_name = none →
      lensProcess textFn cells parent_name child_name offset tolerance mode
          sort_dir digit_width
        = Except.error (PyErr.valueError "Cell 未找到")) ∧
    (∀ (textFn : String → List Polygon) (cells : List (String × Cell))
        (parent_name child_name : String) (offset : ℚ × ℚ) (tolerance : ℚ)
        (mode : LensMode) (sort_dir : SortDir) (digit_width : ℕ)
        (cell_a cell_b : Cell),
      cells.lookup parent_name = some cell_a →
      cells.lookup child_name = some cell_b →
      lensCollect cell_a.references child_name (cellBBoxCenter cell_b) = [] →
      lensProcess textFn cells parent_name child_name offset tolerance mode
          sort_dir digit_width
        = Except.error (PyErr.valueError "没有找到实例")) ∧
    (∀ (cs : ℚ → ℚ × ℚ) (textFn : String → ℚ → List Polygon)
        (cells : List (String × Cell)) (cell_a_name cell_b_name : String)
        (text_anchor text_area : ℚ × ℚ),
      cells.lookup cell_a_name = none →
      shotProcess cs textFn cells cell_a_name cell_b_name text_anchor
          text_area
        = Except.error (PyErr.valueError (cell_a_name ++ " 不存在"))) ∧
    (∀ (cs : ℚ → ℚ × ℚ) (textFn : String → ℚ → List Polygon)
        (cells : List (String × Cell)) (cell_a_name cell_b_name : String)
        (text_anchor text_area : ℚ × ℚ) (cell_a : Cell),
      cells.lookup cell_a_name = some cell_a →
      (cell_a.references.filterMap (fun r =>
        if r.cellName = cell_b_name then
          some (⟨transform_point cs (0, 0) r,
                 transform_point cs text_anchor r,
                 r.magnification⟩ : ShotInst)
        else none)) = [] →
      shotProcess cs textFn cells cell_a_name cell_b_name text_anchor
          text_area
        = Except.error (PyErr.valueError "未找到引用")) ∧
    (∀ (cells : List (String × Cell)) (cellName : String)
        (layer datatype : ℤ) (cell : Cell),
      cells.lookup cellName = some cell →
      extractRecords cell.polygons layer datatype = [] →
      run_analysis cells cellName layer datatype
        = Except.error (PyErr.valueError "未找到数据。")) := by
  refine ⟨?_, ?_, ?_, ?_, ?_⟩
  · intro textFn cells parent_name child_name offset tolerance mode sort_dir
      digit_width h
    rcases h with h | h
    · rw [lensProcess, h]
    · rw [lensProcess, h]
      cases cells.lookup parent_name <;> rfl
  · intro textFn cells parent_name child_name offset tolerance mode sort_dir
      digit_width cell_a cell_b ha hb hempty
    rw [lensProcess, ha, hb]
    dsimp only
    rw [if_pos hempty]
  · intro cs textFn cells cell_a_name cell_b_name text_anchor text_area h
    rw [shotProcess, h]
  · intro cs textFn cells cell_a_name cell_b_name text_anchor text_area
      cell_a ha hempty
    rw [shotProcess, ha]
    dsimp only
    rw [if_pos hempty]
  · intro cells cellName layer datatype cell hcell hempty
    rw [run_analysis, hcell]
    dsimp only
    rw [if_pos hempty]

/-- Witness for C8: a missing parent cell and an empty-extraction cell. -/
theorem notFound_failures_witness :
    lensProcess (fun _ => []) [] "A" "B" (0, 0) 1 LensMode.row_col
        SortDir.y_first 4
      = Except.error (PyErr.valueError "Cell 未找到") ∧
    run_analysis [("TOP", ⟨[], []⟩)] "TOP" 1 0
      = Except.error (PyErr.valueError "未找到数据。") :=
  ⟨notFound_failures.1 (fun _ => []) [] "A" "B" (0, 0) 1 LensMode.row_col
      SortDir.y_first 4 (Or.inl rfl),
   notFound_failures.2.2.2.2 [("TOP", ⟨[], []⟩)] "TOP" 1 0 ⟨[], []⟩
      (by rfl) rfl⟩

lemma lensLabelSeq_zero (dir : SortDir) (w : ℕ) :
    ∀ insts : List (ℚ × ℚ), insts ≠ [] →
      lensLabelSeq 0 dir w insts = Except.error PyErr.zeroDivisionError := by
  intro insts h
  cases insts with
  | nil => exact absurd rfl h
  | cons p ps => rfl

/-- Claim C10: the sequential-mode sort key divides by the tolerance with no
zero guard: whenever the parent and child exist and at least one instance
matches, tolerance 0 makes the numbering operation fail with
`ZeroDivisionError`, which is distinct from every documented
(`ValueError`-based) error kind. -/
theorem seqMode_zero_tolerance_zeroDivision :
    (∀ (textFn : String → List Polygon) (cells : List (String × Cell))
        (parent_name child_name : String) (offset : ℚ × ℚ)
        (sort_dir : SortDir) (digit_width : ℕ) (cell_a cell_b : Cell),
      cells.lookup parent_name = some cell_a →
      cells.lookup child_name = some cell_b →
      lensCollect cell_a.references child_name (cellBBoxCenter cell_b) ≠ [] →
      lensProcess textFn cells parent_name child_name offset 0
          LensMode.sequential sort_dir digit_width
        = Except.error PyErr.zeroDivisionError) ∧
    (∀ msg : String, PyErr.zeroDivisionError ≠ PyErr.valueError msg) := by
  constructor
  · intro textFn cells parent_name child_name offset sort_dir digit_width
      cell_a cell_b ha hb hne
    rw [lensProcess, ha, hb]
    dsimp only
    rw [if_neg hne, lensLabelSeq_zero sort_dir digit_width _ hne]
    rfl
  · intro msg h
    exact PyErr.noConfusion h

/-- Witness for C10 at a concrete one-instance design. -/
theorem seqMode_zero_tolerance_zeroDivision_witness :
    lensProcess (fun _ => [])
        [("A", ⟨[], [⟨"B", (0, 0), none, none, false⟩]⟩), ("B", ⟨[], []⟩)]
        "A" "B" (0, 0) 0 LensMode.sequential SortDir.y_first 4
      = Except.error PyErr.zeroDivisionError :=
  seqMode_zero_tolerance_zeroDivision.1 (fun _ => [])
    [("A", ⟨[], [⟨"B", (0, 0), none, none, false⟩]⟩), ("B", ⟨[], []⟩)]
    "A" "B" (0, 0) SortDir.y_first 4
    ⟨[], [⟨"B", (0, 0), none, none, false⟩]⟩ ⟨[], []⟩
    (by rfl) (by rfl) (by simp [lensCollect, List.filterMap, cellBBoxCenter,
      unionBBox])
